import Mathlib

/-!
Verification development for the akula execution-driver core:
the compact account storage codec (src/models/account.rs) and the
continuation driver (src/execution/continuation/).

Machine integers are modelled as `Nat` with explicit range side conditions
(`u64` values are `< 2^64`, `U256` values are `< 2^256`); byte buffers are
`List Nat` whose members are `< 256`.  Fallible operations (Rust panics on
out-of-range slicing and the decoder's error surface) return `Option`.
-/

/-! ## Byte-level primitives -/

/-- Big-endian byte representation of `n` in exactly `w` bytes, most
significant byte first (models `u64::to_be_bytes` for `w = 8` and the
32-byte big-endian form of a `U256` for `w = 32`). -/
def beBytes : Nat → Nat → List Nat
  | 0, _ => []
  | w + 1, n => n / 256 ^ w :: beBytes w (n % 256 ^ w)

/-- Value of a big-endian byte list. -/
def beVal : List Nat → Nat
  | [] => 0
  | b :: rest => b * 256 ^ rest.length + beVal rest

/-- Value of a little-endian byte list (models `u64::from_le_bytes`). -/
def leVal : List Nat → Nat
  | [] => 0
  | b :: rest => b + 256 * leVal rest

/-- Bit length of `n`, computed with explicit fuel: with fuel `f` this is
exact for every `n < 2^f`.  Models `64 - num.leading_zeros()` on a `u64`
(fuel 64) and `U256::bits()` (fuel 256). -/
def bitLenAux : Nat → Nat → Nat
  | 0, _ => 0
  | f + 1, n => if n = 0 then 0 else bitLenAux f (n / 2) + 1

/-! ## Account data model (src/models/account.rs) -/

/-- `EMPTY_HASH` = keccak256 of the empty byte string, as 32 bytes. -/
def EMPTY_HASH : List Nat :=
  [0xc5, 0xd2, 0x46, 0x01, 0x86, 0xf7, 0x23, 0x3c,
   0x92, 0x7e, 0x7d, 0xb2, 0xdc, 0xc7, 0x03, 0xc0,
   0xe5, 0x00, 0xb6, 0x53, 0xca, 0x82, 0x27, 0x3b,
   0x7b, 0xfa, 0xd8, 0x04, 0x5d, 0x85, 0xa4, 0x70]

/-- The `Account` record: `nonce: u64`, `balance: U256`,
`code_hash: H256` (32 bytes), `incarnation: u64`. -/
structure Account where
  nonce : Nat
  balance : Nat
  code_hash : List Nat
  incarnation : Nat
deriving DecidableEq, Repr

/-- `Default for Account`: all integers zero, code hash `EMPTY_HASH`. -/
def Account.default : Account :=
  { nonce := 0, balance := 0, code_hash := EMPTY_HASH, incarnation := 0 }

/-- Well-formedness: the Rust field types (`u64`, `U256`, `H256`) impose
these ranges. -/
def Account.wf (a : Account) : Prop :=
  a.nonce < 2 ^ 64 ∧ a.balance < 2 ^ 256 ∧
  a.code_hash.length = 32 ∧ (∀ b ∈ a.code_hash, b < 256) ∧
  a.incarnation < 2 ^ 64

instance (a : Account) : Decidable a.wf := by
  unfold Account.wf; infer_instance

/-- `Account::MAX_ENCODED_LEN`, copied from the source expression. -/
def Account.MAX_ENCODED_LEN : Nat := 1 + (1 + 32) + (1 + 8) + (1 + 32) + (1 + 8)

/-- `u64_compact_len`: `((u64::BITS - num.leading_zeros()) + 7) / 8`. -/
def Account.u64_compact_len (num : Nat) : Nat := (bitLenAux 64 num + 7) / 8

/-- `u256_compact_len`: `(num.bits() + 7) / 8`. -/
def Account.u256_compact_len (num : Nat) : Nat := (bitLenAux 256 num + 7) / 8

/-- `Account::encoding_length_for_storage`, fields counted in source
order: flags byte, then balance, nonce, code hash, incarnation terms. -/
def Account.encoding_length_for_storage (a : Account) : Nat :=
  1 + (if a.balance ≠ 0 then 1 + Account.u256_compact_len a.balance else 0)
    + (if a.nonce > 0 then 1 + Account.u64_compact_len a.nonce else 0)
    + (if a.code_hash ≠ EMPTY_HASH then 33 else 0)
    + (if a.incarnation > 0 then 1 + Account.u64_compact_len a.incarnation else 0)

/-- `u64::to_be_bytes`. -/
def to_be_bytes (n : Nat) : List Nat := beBytes 8 n

/-- `value_to_bytes` (util): 32-byte big-endian form of a `U256`. -/
def value_to_bytes (n : Nat) : List Nat := beBytes 32 n

/-- `write_compact`: strip leading zero bytes, then emit one length byte
followed by the stripped payload.  (When the stripped payload is empty the
length byte position keeps its pre-zeroed value `0` and nothing follows.) -/
def write_compact (input : List Nat) : List Nat :=
  let stripped := input.dropWhile (fun v => v = 0)
  if stripped.length > 0 then stripped.length :: stripped else [0]

/-- The field-set flags byte built by `encode_for_storage`
(`AccountStorageFlags`, LSB first: bit0 nonce, bit1 balance,
bit2 incarnation, bit3 code_hash).  The code-hash bit is set only when the
hash is not `EMPTY_HASH` and the caller did not ask to omit it. -/
def fieldSetByte (a : Account) (omit_code_hash : Bool) : Nat :=
  (if a.nonce > 0 then 1 else 0)
  + (if a.balance ≠ 0 then 2 else 0)
  + (if a.incarnation > 0 then 4 else 0)
  + (if a.code_hash ≠ EMPTY_HASH ∧ ¬omit_code_hash then 8 else 0)

/-- The bytes actually written by `encode_for_storage` after the flags
byte, in write order: nonce, balance, incarnation, code hash. -/
def encodedFields (a : Account) (omit_code_hash : Bool) : List Nat :=
  (if a.nonce > 0 then write_compact (to_be_bytes a.nonce) else [])
  ++ (if a.balance ≠ 0 then write_compact (value_to_bytes a.balance) else [])
  ++ (if a.incarnation > 0 then write_compact (to_be_bytes a.incarnation) else [])
  ++ (if a.code_hash ≠ EMPTY_HASH ∧ ¬omit_code_hash then 32 :: a.code_hash else [])

/-- The prefix of the output buffer that `encode_for_storage` writes. -/
def encodeBody (a : Account) (omit_code_hash : Bool) : List Nat :=
  fieldSetByte a omit_code_hash :: encodedFields a omit_code_hash

/-- `Account::encode_for_storage`: the Rust code allocates a zeroed buffer
of `encoding_length_for_storage` bytes, writes `encodeBody` into its front
and returns the whole buffer, so any unwritten tail stays zero.  (The
source guards the code-hash write with the caller's `omit_code_hash`
flag, but `encoding_length_for_storage` does not consult that flag.) -/
def Account.encode_for_storage (a : Account) (omit_code_hash : Bool) : List Nat :=
  let body := encodeBody a omit_code_hash
  body ++ List.replicate (a.encoding_length_for_storage - body.length) 0

/-- `bytes_to_u64`: right-align the big-endian payload into an 8-byte
little-endian word.  Writing index `i ≥ 8` of the 8-byte array panics,
modelled as `none`. -/
def bytes_to_u64 (buf : List Nat) : Option Nat :=
  if buf.length ≤ 8 then some (leVal buf.reverse) else none

/-- `U256::from_big_endian`, which panics when the slice exceeds 32
bytes (modelled as `none`). -/
def from_big_endian (buf : List Nat) : Option Nat :=
  if buf.length ≤ 32 then some (leVal buf.reverse) else none

/-- `H256::from_slice`, which panics unless the slice is exactly 32
bytes (modelled as `none`). -/
def from_slice (buf : List Nat) : Option (List Nat) :=
  if buf.length = 32 then some buf else none

/-- One length byte (`get_u8`) followed by that many payload bytes
(`&enc[..decode_length]` + `advance`); out-of-range slicing panics,
modelled as `none`. -/
def takePayload (enc : List Nat) : Option (List Nat × List Nat) :=
  match enc with
  | [] => none
  | len :: rest =>
    if len ≤ rest.length then some (rest.take len, rest.drop len) else none

/-- One field of `decode_from_storage`: if the field's flag bit is set,
read a length byte and payload and decode it with `reader`; otherwise keep
the default value and consume nothing. -/
def decodeField {α : Type} (present : Bool) (reader : List Nat → Option α)
    (dflt : α) (enc : List Nat) : Option (α × List Nat) :=
  if present then
    (takePayload enc).bind fun pr => (reader pr.1).map fun v => (v, pr.2)
  else some (dflt, enc)

/-- `Account::decode_from_storage`: read the flags byte, then the present
fields in the order nonce, balance, incarnation, code hash.  The source
performs no malformedness checks of its own (the `decode_length != 32`
check for the code hash is commented out); `none` arises only from the
modelled panics of the underlying byte reads. -/
def Account.decode_from_storage (enc : List Nat) : Option Account :=
  match enc with
  | [] => none
  | field_set :: rest =>
    (decodeField (field_set.testBit 0) bytes_to_u64 0 rest).bind fun p1 =>
    (decodeField (field_set.testBit 1) from_big_endian 0 p1.2).bind fun p2 =>
    (decodeField (field_set.testBit 2) bytes_to_u64 0 p2.2).bind fun p3 =>
    (decodeField (field_set.testBit 3) from_slice EMPTY_HASH p3.2).map fun p4 =>
    { nonce := p1.1, balance := p2.1, code_hash := p4.1, incarnation := p3.1 }

/-! ## Arithmetic facts about the byte-level primitives -/

theorem beBytes_length (w n : Nat) : (beBytes w n).length = w := by
  induction w generalizing n with
  | zero => rfl
  | succ w ih => simp [beBytes, ih]

theorem beVal_beBytes (w n : Nat) (h : n < 256 ^ w) : beVal (beBytes w n) = n := by
  induction w generalizing n with
  | zero =>
    have : n = 0 := by simpa using h
    simp [this, beBytes, beVal]
  | succ w ih =>
    have hmod : n % 256 ^ w < 256 ^ w := Nat.mod_lt _ (Nat.pos_pow_of_pos _ (by norm_num))
    simp only [beBytes, beVal, beBytes_length, ih _ hmod]
    calc n / 256 ^ w * 256 ^ w + n % 256 ^ w
        = 256 ^ w * (n / 256 ^ w) + n % 256 ^ w := by ring
      _ = n := Nat.div_add_mod n (256 ^ w)

theorem beVal_dropWhile_zero (l : List Nat) :
    beVal (l.dropWhile (fun v => v = 0)) = beVal l := by
  induction l with
  | nil => rfl
  | cons x t ih =>
    by_cases hx : x = 0
    · subst hx
      simpa [List.dropWhile_cons, beVal] using ih
    · simp [List.dropWhile_cons, hx]

theorem leVal_append (l : List Nat) (x : Nat) :
    leVal (l ++ [x]) = leVal l + x * 256 ^ l.length := by
  induction l with
  | nil => simp [leVal]
  | cons y t ih => simp [leVal, ih]; ring

theorem leVal_reverse (l : List Nat) : leVal l.reverse = beVal l := by
  induction l with
  | nil => rfl
  | cons x t ih =>
    simp only [List.reverse_cons, leVal_append, ih, beVal, List.length_reverse]
    ring

theorem dropWhile_beBytes_length_le_iff (w n k : Nat) (h : n < 256 ^ w) :
    ((beBytes w n).dropWhile (fun v => v = 0)).length ≤ k ↔ n < 256 ^ k := by
  induction w generalizing n with
  | zero =>
    have hn : n = 0 := by simpa using h
    subst hn
    simp [beBytes, Nat.pos_pow_of_pos, Nat.pos_pow_of_pos k (by norm_num : 0 < 256)]
  | succ w ih =>
    by_cases hlt : n < 256 ^ w
    · have hdiv : n / 256 ^ w = 0 := Nat.div_eq_of_lt hlt
      have hmod : n % 256 ^ w = n := Nat.mod_eq_of_lt hlt
      simp only [beBytes, hdiv, hmod, List.dropWhile_cons]
      simpa using ih n hlt
    · push_neg at hlt
      have hdiv : 0 < n / 256 ^ w :=
        Nat.div_pos hlt (Nat.pos_pow_of_pos _ (by norm_num))
      have hdiv' : ¬ (n / 256 ^ w = 0) := Nat.pos_iff_ne_zero.mp hdiv
      simp only [beBytes, List.dropWhile_cons, hdiv', decide_False,
        Bool.false_eq_true, if_false, List.length_cons, beBytes_length]
      constructor
      · intro hk
        exact lt_of_lt_of_le h (Nat.pow_le_pow_right (by norm_num) hk)
      · intro hk
        have : 256 ^ w < 256 ^ k := lt_of_le_of_lt hlt hk
        have hwk : w < k := (Nat.pow_lt_pow_iff_right (by norm_num)).mp this
        omega

theorem bitLenAux_le_iff (f n j : Nat) (h : n < 2 ^ f) :
    bitLenAux f n ≤ j ↔ n < 2 ^ j := by
  induction f generalizing n j with
  | zero =>
    have hn : n = 0 := by simpa using h
    subst hn
    simp [bitLenAux, Nat.pos_pow_of_pos]
  | succ f ih =>
    by_cases hn : n = 0
    · subst hn
      simp [bitLenAux, Nat.pos_pow_of_pos]
    · have hhalf : n / 2 < 2 ^ f := by
        rw [Nat.div_lt_iff_lt_mul (by norm_num : 0 < 2)]
        calc n < 2 ^ (f + 1) := h
        _ = 2 ^ f * 2 := by rw [Nat.pow_succ]
      simp only [bitLenAux, hn, if_false]
      cases j with
      | zero =>
        simp only [Nat.le_zero, Nat.add_eq_zero]
        constructor
        · intro ⟨_, hfalse⟩; exact absurd hfalse (by norm_num)
        · intro hlt
          exact absurd (by omega : n = 0) hn
      | succ j =>
        rw [Nat.succ_le_succ_iff, ih _ _ hhalf,
          Nat.div_lt_iff_lt_mul (by norm_num : 0 < 2), ← Nat.pow_succ]

theorem nat_eq_of_le_iff {m n : Nat} (h : ∀ k, m ≤ k ↔ n ≤ k) : m = n :=
  Nat.le_antisymm ((h n).mpr le_rfl) ((h m).mp le_rfl)

/-- The compact length computed arithmetically by the source coincides
with the number of bytes left after stripping leading zeros. -/
theorem compactLen_eq_stripped_length (w n : Nat) (h : n < 256 ^ w) :
    (bitLenAux (8 * w) n + 7) / 8
      = ((beBytes w n).dropWhile (fun v => v = 0)).length := by
  have h2 : n < 2 ^ (8 * w) := by
    rw [Nat.pow_mul]
    simpa using h
  refine (nat_eq_of_le_iff fun k => ?_).symm
  rw [dropWhile_beBytes_length_le_iff w n k h]
  rw [Nat.div_le_iff_le_mul_add_pred (by norm_num : 0 < 8)]
  constructor
  · intro hlt
    have : bitLenAux (8 * w) n ≤ 8 * k := by
      have := (bitLenAux_le_iff (8 * w) n (8 * k) h2).mpr
        (by rw [Nat.pow_mul]; simpa using hlt)
      exact this
    omega
  · intro hle
    have : bitLenAux (8 * w) n ≤ 8 * k := by omega
    have := (bitLenAux_le_iff (8 * w) n (8 * k) h2).mp this
    rw [Nat.pow_mul] at this
    simpa using this

theorem u64_compact_len_eq (n : Nat) (h : n < 2 ^ 64) :
    Account.u64_compact_len n
      = ((beBytes 8 n).dropWhile (fun v => v = 0)).length := by
  have h' : n < 256 ^ 8 := by norm_num at h ⊢; exact h
  have := compactLen_eq_stripped_length 8 n h'
  simpa [Account.u64_compact_len] using this

theorem u256_compact_len_eq (n : Nat) (h : n < 2 ^ 256) :
    Account.u256_compact_len n
      = ((beBytes 32 n).dropWhile (fun v => v = 0)).length := by
  have h' : n < 256 ^ 32 := by norm_num at h ⊢; exact h
  have := compactLen_eq_stripped_length 32 n h'
  simpa [Account.u256_compact_len] using this

theorem dropWhile_beBytes_ne_nil (w n : Nat) (h : n < 256 ^ w) (hpos : 0 < n) :
    (beBytes w n).dropWhile (fun v => v = 0) ≠ [] := by
  intro hnil
  have := beVal_dropWhile_zero (beBytes w n)
  rw [hnil, beVal_beBytes w n h] at this
  simp [beVal] at this
  omega

theorem write_compact_beBytes (w n : Nat) (h : n < 256 ^ w) (hpos : 0 < n) :
    write_compact (beBytes w n)
      = ((beBytes w n).dropWhile (fun v => v = 0)).length
        :: (beBytes w n).dropWhile (fun v => v = 0) := by
  have hne := dropWhile_beBytes_ne_nil w n h hpos
  have hlen : 0 < ((beBytes w n).dropWhile (fun v => v = 0)).length :=
    List.length_pos.mpr hne
  simp [write_compact, hlen]

/-! ## The flags byte -/

theorem fieldSet_testBit (P Q R T : Prop)
    [Decidable P] [Decidable Q] [Decidable R] [Decidable T] :
    (((if P then 1 else 0) + (if Q then 2 else 0)
        + (if R then 4 else 0) + (if T then 8 else 0) : Nat).testBit 0 = decide P)
    ∧ (((if P then 1 else 0) + (if Q then 2 else 0)
        + (if R then 4 else 0) + (if T then 8 else 0) : Nat).testBit 1 = decide Q)
    ∧ (((if P then 1 else 0) + (if Q then 2 else 0)
        + (if R then 4 else 0) + (if T then 8 else 0) : Nat).testBit 2 = decide R)
    ∧ (((if P then 1 else 0) + (if Q then 2 else 0)
        + (if R then 4 else 0) + (if T then 8 else 0) : Nat).testBit 3 = decide T) := by
  by_cases hP : P <;> by_cases hQ : Q <;> by_cases hR : R <;> by_cases hT : T <;>
    simp [hP, hQ, hR, hT] <;> decide

/-! ## Exactness of the pre-computed encoding length -/

theorem length_u64_field (num : Nat) (h : num < 2 ^ 64) :
    (if num > 0 then write_compact (to_be_bytes num) else []).length
      = (if num > 0 then 1 + Account.u64_compact_len num else 0) := by
  have h' : num < 256 ^ 8 := by norm_num at h ⊢; exact h
  by_cases hp : num > 0
  · rw [if_pos hp, if_pos hp, to_be_bytes, write_compact_beBytes 8 num h' hp,
      List.length_cons, u64_compact_len_eq num h]
    omega
  · rw [if_neg hp, if_neg hp, List.length_nil]

theorem length_u256_field (num : Nat) (h : num < 2 ^ 256) :
    (if num ≠ 0 then write_compact (value_to_bytes num) else []).length
      = (if num ≠ 0 then 1 + Account.u256_compact_len num else 0) := by
  have h' : num < 256 ^ 32 := by norm_num at h ⊢; exact h
  by_cases hp : num ≠ 0
  · rw [if_pos hp, if_pos hp, value_to_bytes,
      write_compact_beBytes 32 num h' (Nat.pos_of_ne_zero hp),
      List.length_cons, u256_compact_len_eq num h]
    omega
  · rw [if_neg hp, if_neg hp, List.length_nil]

theorem length_hash_field (ch : List Nat) (hlen : ch.length = 32) :
    (if ch ≠ EMPTY_HASH ∧ ¬(false : Bool) then 32 :: ch else []).length
      = (if ch ≠ EMPTY_HASH then 33 else 0) := by
  by_cases hp : ch ≠ EMPTY_HASH
  · rw [if_pos ⟨hp, by simp⟩, if_pos hp, List.length_cons, hlen]
  · rw [if_neg (by simp [hp]), if_neg hp, List.length_nil]

/-- With `omit_code_hash = false` the bytes written fill the pre-computed
buffer exactly. -/
theorem encodeBody_length (a : Account) (h : a.wf) :
    (encodeBody a false).length = a.encoding_length_for_storage := by
  obtain ⟨hn, hb, hchlen, _, hinc⟩ := h
  simp only [encodeBody, encodedFields, Account.encoding_length_for_storage,
    List.length_cons, List.length_append, length_u64_field a.nonce hn,
    length_u256_field a.balance hb, length_u64_field a.incarnation hinc,
    length_hash_field a.code_hash hchlen]
  omega

theorem encode_eq_body (a : Account) (h : a.wf) :
    a.encode_for_storage false = encodeBody a false := by
  rw [Account.encode_for_storage]
  rw [encodeBody_length a h]
  simp

/-! ## Decoding the encoded fields -/

theorem decodeField_false {α : Type} (reader : List Nat → Option α) (d : α)
    (enc : List Nat) : decodeField false reader d enc = some (d, enc) := rfl

theorem decodeField_true_payload {α : Type} (reader : List Nat → Option α)
    (d : α) (payload r : List Nat) (v : α) (hv : reader payload = some v) :
    decodeField true reader d (payload.length :: (payload ++ r))
      = some (v, r) := by
  have hle : payload.length ≤ (payload ++ r).length := by
    simp [List.length_append]
  simp [decodeField, takePayload, hle, List.take_left, List.drop_left, hv]

theorem bytes_to_u64_stripped (w n : Nat) (h : n < 256 ^ w) (hw : w ≤ 8) :
    bytes_to_u64 ((beBytes w n).dropWhile (fun v => v = 0)) = some n := by
  have hlen : ((beBytes w n).dropWhile (fun v => v = 0)).length ≤ 8 := by
    calc ((beBytes w n).dropWhile (fun v => v = 0)).length
        ≤ (beBytes w n).length := (List.dropWhile_sublist _).length_le
      _ = w := beBytes_length w n
      _ ≤ 8 := hw
  rw [bytes_to_u64, if_pos hlen, leVal_reverse, beVal_dropWhile_zero,
    beVal_beBytes w n h]

theorem from_big_endian_stripped (n : Nat) (h : n < 256 ^ 32) :
    from_big_endian ((beBytes 32 n).dropWhile (fun v => v = 0)) = some n := by
  have hlen : ((beBytes 32 n).dropWhile (fun v => v = 0)).length ≤ 32 := by
    calc ((beBytes 32 n).dropWhile (fun v => v = 0)).length
        ≤ (beBytes 32 n).length := (List.dropWhile_sublist _).length_le
      _ = 32 := beBytes_length 32 n
  rw [from_big_endian, if_pos hlen, leVal_reverse, beVal_dropWhile_zero,
    beVal_beBytes 32 n h]

theorem decode_u64_field (num : Nat) (hr : num < 2 ^ 64) (r : List Nat) :
    decodeField (decide (num > 0)) bytes_to_u64 0
      ((if num > 0 then write_compact (to_be_bytes num) else []) ++ r)
      = some (num, r) := by
  have hr' : num < 256 ^ 8 := by norm_num at hr ⊢; exact hr
  by_cases h : num > 0
  · rw [if_pos h, decide_eq_true h, to_be_bytes,
      write_compact_beBytes 8 num hr' h, List.cons_append]
    exact decodeField_true_payload _ _ _ _ _ (bytes_to_u64_stripped 8 num hr' le_rfl)
  · have hz : num = 0 := by omega
    subst hz
    rw [if_neg h, decide_eq_false h, List.nil_append, decodeField_false]

theorem decode_u256_field (num : Nat) (hr : num < 2 ^ 256) (r : List Nat) :
    decodeField (decide (num ≠ 0)) from_big_endian 0
      ((if num ≠ 0 then write_compact (value_to_bytes num) else []) ++ r)
      = some (num, r) := by
  have hr' : num < 256 ^ 32 := by norm_num at hr ⊢; exact hr
  by_cases h : num ≠ 0
  · rw [if_pos h, decide_eq_true h, value_to_bytes,
      write_compact_beBytes 32 num hr' (Nat.pos_of_ne_zero h), List.cons_append]
    exact decodeField_true_payload _ _ _ _ _ (from_big_endian_stripped num hr')
  · push_neg at h
    subst h
    simp [decodeField_false]

theorem decode_hash_field (ch : List Nat) (hlen : ch.length = 32) (r : List Nat) :
    decodeField (decide (ch ≠ EMPTY_HASH)) from_slice EMPTY_HASH
      ((if ch ≠ EMPTY_HASH then 32 :: ch else []) ++ r)
      = some (ch, r) := by
  by_cases h : ch ≠ EMPTY_HASH
  · rw [if_pos h, decide_eq_true h]
    have h32 : (32 : Nat) = ch.length := hlen.symm
    rw [List.cons_append, h32]
    exact decodeField_true_payload _ _ _ _ _ (by rw [from_slice, if_pos hlen])
  · push_neg at h
    subst h
    rw [decide_eq_false (by simp), if_neg (by simp), List.nil_append,
      decodeField_false]

/-- Decoding an exact encoding: the central round-trip argument. -/
theorem decode_encodeBody (a : Account) (h : a.wf) :
    Account.decode_from_storage (encodeBody a false) = some a := by
  obtain ⟨hn, hb, hchlen, hchb, hinc⟩ := h
  obtain ⟨t0, t1, t2, t3⟩ := fieldSet_testBit (a.nonce > 0) (a.balance ≠ 0)
    (a.incarnation > 0) (a.code_hash ≠ EMPTY_HASH ∧ ¬(false : Bool))
  simp only [encodeBody, Account.decode_from_storage, fieldSetByte,
    encodedFields, t0, t1, t2, t3]
  rw [List.append_assoc, List.append_assoc]
  rw [decode_u64_field a.nonce hn]
  simp only [Option.some_bind]
  rw [decode_u256_field a.balance hb]
  simp only [Option.some_bind]
  rw [decode_u64_field a.incarnation hinc]
  simp only [Option.some_bind]
  rw [show (decide (a.code_hash ≠ EMPTY_HASH ∧ ¬(false : Bool)))
      = decide (a.code_hash ≠ EMPTY_HASH) by simp]
  rw [show (if a.code_hash ≠ EMPTY_HASH ∧ ¬(false : Bool)
      then 32 :: a.code_hash else []) = (if a.code_hash ≠ EMPTY_HASH
      then 32 :: a.code_hash else []) by simp]
  rw [← List.append_nil (if a.code_hash ≠ EMPTY_HASH then 32 :: a.code_hash else [])]
  rw [decode_hash_field a.code_hash hchlen]
  rfl

/-! ## Size bound analysis -/

theorem u64_compact_len_le (n : Nat) (h : n < 2 ^ 64) :
    Account.u64_compact_len n ≤ 8 := by
  have := (bitLenAux_le_iff 64 n 64 h).mpr h
  unfold Account.u64_compact_len
  omega

theorem u256_compact_len_le (n : Nat) (h : n < 2 ^ 256) :
    Account.u256_compact_len n ≤ 32 := by
  have := (bitLenAux_le_iff 256 n 256 h).mpr h
  unfold Account.u256_compact_len
  omega

theorem encoding_length_le_max (a : Account) (h : a.wf) :
    a.encoding_length_for_storage ≤ 85 ∧
    (a.encoding_length_for_storage = 85 ↔
      Account.u64_compact_len a.nonce = 8 ∧
      Account.u256_compact_len a.balance = 32 ∧
      Account.u64_compact_len a.incarnation = 8 ∧
      a.code_hash ≠ EMPTY_HASH) := by
  obtain ⟨hn, hb, _, _, hinc⟩ := h
  have hn8 := u64_compact_len_le a.nonce hn
  have hb32 := u256_compact_len_le a.balance hb
  have hi8 := u64_compact_len_le a.incarnation hinc
  have hz64 : Account.u64_compact_len 0 = 0 := by decide
  have hz256 : Account.u256_compact_len 0 = 0 := by decide
  unfold Account.encoding_length_for_storage
  by_cases c1 : a.balance = 0 <;> by_cases c2 : a.nonce = 0 <;>
    by_cases c3 : a.code_hash ≠ EMPTY_HASH <;> by_cases c4 : a.incarnation = 0 <;>
    simp only [c1, c2, c3, c4, hz64, hz256, Nat.pos_iff_ne_zero, ne_eq,
      not_false_eq_true, not_true_eq_false, ite_true, ite_false, iff_true,
      iff_false, not_not, and_true, and_false, false_and, true_and,
      OfNat.zero_ne_ofNat, zero_ne_one] <;>
    constructor <;> omega

/-! ## Concrete accounts from the spec's scenario table -/

/-- keccak256 of the bytes `01 02 03` (literal from the source tests). -/
def keccak_010203 : List Nat :=
  [0xf1, 0x88, 0x5e, 0xda, 0x54, 0xb7, 0xa0, 0x53,
   0x31, 0x8c, 0xd4, 0x1e, 0x20, 0x93, 0x22, 0x0d,
   0xab, 0x15, 0xd6, 0x53, 0x81, 0xb1, 0x15, 0x7a,
   0x36, 0x33, 0xa8, 0x3b, 0xfd, 0x5c, 0x92, 0x39]

/-- The 32-byte hash `0x…0123`. -/
def hash_0123 : List Nat := List.replicate 30 0 ++ [0x01, 0x23]

def exampleE1 : Account :=
  { nonce := 100, balance := 0, code_hash := EMPTY_HASH, incarnation := 5 }

def exampleE1Bytes : List Nat := [0x05, 0x01, 0x64, 0x01, 0x05]

def exampleE2 : Account :=
  { nonce := 2, balance := 1000, code_hash := keccak_010203, incarnation := 4 }

def exampleE2Bytes : List Nat :=
  [0x0f, 0x01, 0x02, 0x02, 0x03, 0xe8, 0x01, 0x04, 0x20] ++ keccak_010203

def exampleE3 : Account :=
  { nonce := 2, balance := 1000, code_hash := EMPTY_HASH, incarnation := 5 }

def exampleE3Bytes : List Nat := [0x07, 0x01, 0x02, 0x02, 0x03, 0xe8, 0x01, 0x05]

def exampleE4 : Account :=
  { nonce := 0, balance := 0, code_hash := hash_0123, incarnation := 1 }

def exampleE4Bytes : List Nat := [0x0c, 0x01, 0x01, 0x20] ++ hash_0123

def exampleE5 : Account :=
  { nonce := 0, balance := 0, code_hash := EMPTY_HASH, incarnation := 1 }

def exampleE5Bytes : List Nat := [0x04, 0x01, 0x01]

/-! ## Claims about the account codec -/

/-- C1: for every well-formed `Account a`, decoding the result of encoding
`a` with `omit_code_hash = false` yields an account equal to `a`. -/
theorem C1_roundtrip (a : Account) (h : a.wf) :
    Account.decode_from_storage (a.encode_for_storage false) = some a := by
  rw [encode_eq_body a h]
  exact decode_encodeBody a h

theorem C1_roundtrip_witness :
    exampleE2.wf ∧
    Account.decode_from_storage (exampleE2.encode_for_storage false)
      = some exampleE2 :=
  ⟨by decide, C1_roundtrip exampleE2 (by decide)⟩

/-- C2 (code bug evaluation): the decoder accepts a flag byte whose
reserved bits 4–7 are all set and silently returns the default account
instead of rejecting the input. -/
theorem C2_reserved_bits_accepted :
    Account.decode_from_storage [0xf0] = some Account.default := by decide

/-- C3 (counterexample): `MAX_ENCODED_LEN` is not 83. -/
theorem C3_max_len_counterexample : ¬(Account.MAX_ENCODED_LEN = 83) := by decide

/-- C3 (amended): `MAX_ENCODED_LEN` equals 85 bytes; for every well-formed
account the encoding with `omit_code_hash = false` is at most 85 bytes
long, with equality exactly when nonce, balance and incarnation have 8, 32
and 8 significant bytes respectively and the code hash is not
`EMPTY_HASH`. -/
theorem C3_max_len_amended (a : Account) (h : a.wf) :
    Account.MAX_ENCODED_LEN = 85 ∧
    (a.encode_for_storage false).length ≤ Account.MAX_ENCODED_LEN ∧
    ((a.encode_for_storage false).length = Account.MAX_ENCODED_LEN ↔
      Account.u64_compact_len a.nonce = 8 ∧
      Account.u256_compact_len a.balance = 32 ∧
      Account.u64_compact_len a.incarnation = 8 ∧
      a.code_hash ≠ EMPTY_HASH) := by
  have hlen : (a.encode_for_storage false).length = a.encoding_length_for_storage := by
    rw [encode_eq_body a h, encodeBody_length a h]
  obtain ⟨hle, hiff⟩ := encoding_length_le_max a h
  refine ⟨rfl, ?_, ?_⟩
  · rw [hlen]; exact hle
  · rw [hlen]; exact hiff

theorem C3_max_len_amended_witness :
    exampleE2.wf ∧
    (Account.MAX_ENCODED_LEN = 85 ∧
      (exampleE2.encode_for_storage false).length ≤ Account.MAX_ENCODED_LEN ∧
      ((exampleE2.encode_for_storage false).length = Account.MAX_ENCODED_LEN ↔
        Account.u64_compact_len exampleE2.nonce = 8 ∧
        Account.u256_compact_len exampleE2.balance = 32 ∧
        Account.u64_compact_len exampleE2.incarnation = 8 ∧
        exampleE2.code_hash ≠ EMPTY_HASH)) :=
  ⟨by decide, C3_max_len_amended exampleE2 (by decide)⟩

/-- C4 (counterexample): with `omit_code_hash = true` and a non-empty
code hash, the encoder does not produce the same bytes as encoding the
account with the code hash replaced by `EMPTY_HASH`: the output keeps 33
zero bytes of buffer tail, because `encoding_length_for_storage` counts
the code-hash field even when the write is omitted. -/
theorem C4_omit_counterexample :
    ¬(exampleE4.encode_for_storage true
      = ({ exampleE4 with code_hash := EMPTY_HASH } : Account).encode_for_storage false) := by
  decide

/-- C4 (amended): for every well-formed account whose code hash is not
`EMPTY_HASH`, encoding with `omit_code_hash = true` produces the bytes of
encoding the otherwise-identical account with code hash `EMPTY_HASH`,
followed by 33 padding zero bytes. -/
theorem C4_omit_amended (a : Account) (h : a.wf) (hch : a.code_hash ≠ EMPTY_HASH) :
    a.encode_for_storage true
      = ({ a with code_hash := EMPTY_HASH } : Account).encode_for_storage false
        ++ List.replicate 33 0 := by
  obtain ⟨hn, hb, _, _, hinc⟩ := h
  have hwf' : ({ a with code_hash := EMPTY_HASH } : Account).wf :=
    ⟨hn, hb, (by decide : EMPTY_HASH.length = 32),
      (by decide : ∀ b ∈ EMPTY_HASH, b < 256), hinc⟩
  have hbody : encodeBody a true
      = encodeBody ({ a with code_hash := EMPTY_HASH } : Account) false := by
    simp [encodeBody, fieldSetByte, encodedFields]
  have hlen : a.encoding_length_for_storage
      = ({ a with code_hash := EMPTY_HASH } : Account).encoding_length_for_storage + 33 := by
    simp [Account.encoding_length_for_storage, hch]
    omega
  rw [encode_eq_body _ hwf']
  simp only [Account.encode_for_storage]
  rw [hbody, hlen, encodeBody_length _ hwf']
  simp

theorem C4_omit_amended_witness :
    exampleE4.wf ∧ exampleE4.code_hash ≠ EMPTY_HASH ∧
    exampleE4.encode_for_storage true
      = ({ exampleE4 with code_hash := EMPTY_HASH } : Account).encode_for_storage false
        ++ List.replicate 33 0 :=
  ⟨by decide, by decide, C4_omit_amended exampleE4 (by decide) (by decide)⟩

/-- C9: for each of the five concrete accounts E1–E5 of the spec's table,
encoding with `omit_code_hash = false` produces exactly the literal byte
sequence of the table, and decoding that byte sequence reproduces the
account. -/
theorem C9_concrete_scenarios :
    (exampleE1.encode_for_storage false = exampleE1Bytes
      ∧ Account.decode_from_storage exampleE1Bytes = some exampleE1)
    ∧ (exampleE2.encode_for_storage false = exampleE2Bytes
      ∧ Account.decode_from_storage exampleE2Bytes = some exampleE2)
    ∧ (exampleE3.encode_for_storage false = exampleE3Bytes
      ∧ Account.decode_from_storage exampleE3Bytes = some exampleE3)
    ∧ (exampleE4.encode_for_storage false = exampleE4Bytes
      ∧ Account.decode_from_storage exampleE4Bytes = some exampleE4)
    ∧ (exampleE5.encode_for_storage false = exampleE5Bytes
      ∧ Account.decode_from_storage exampleE5Bytes = some exampleE5) := by
  decide

/-- C10: for every well-formed account, the pre-computed
`encoding_length_for_storage` equals the length of the buffer produced by
`encode_for_storage(a, false)`, and the bytes actually written
(`encodeBody`) fill that buffer exactly, so the encoder can neither
overflow nor underfill it. -/
theorem C10_length_exact (a : Account) (h : a.wf) :
    (a.encode_for_storage false).length = a.encoding_length_for_storage ∧
    (encodeBody a false).length = a.encoding_length_for_storage := by
  refine ⟨?_, encodeBody_length a h⟩
  rw [encode_eq_body a h, encodeBody_length a h]

theorem C10_length_exact_witness :
    exampleE3.wf ∧
    ((exampleE3.encode_for_storage false).length
        = exampleE3.encoding_length_for_storage ∧
      (encodeBody exampleE3 false).length
        = exampleE3.encoding_length_for_storage) :=
  ⟨by decide, C10_length_exact exampleE3 (by decide)⟩

/-! ## Continuation driver (src/execution/continuation/) -/

/-- `Address`: opaque 20-byte domain primitive, modelled abstractly. -/
abbrev Address := Nat

/-- `U256` of the execution engine: opaque 256-bit value, modelled
abstractly. -/
abbrev U256 := Nat

/-- `H256`: a 32-byte hash, as in the codec. -/
abbrev H256 := List Nat

/-- `BlockNumber`: opaque domain primitive. -/
abbrev BlockNumber := Nat

/-- Modelled from the spec: `BlockHeader` is an opaque value type defined
by the surrounding ecosystem (not under the sources examined here). -/
abbrev BlockHeader := Nat

/-- Modelled from the spec: `BlockBody` is an opaque value type defined by
the surrounding ecosystem. -/
abbrev BlockBody := Nat

/-- Byte strings (`bytes::Bytes`). -/
abbrev Bytes := List Nat

/-- Modelled from the spec: `ValidationError` is opaque to the driver; it
is only carried, never inspected. -/
abbrev ValidationError := Nat

/-- `InterruptData` (interrupt_data.rs): the yield payload of the inner
coroutine, one variant per request kind. -/
inductive InterruptData where
  | readAccount (address : Address)
  | readStorage (address : Address) (location : U256)
  | readCode (code_hash : H256)
  | eraseStorage (address : Address) (location : U256)
  | readHeader (block_number : BlockNumber) (block_hash : H256)
  | readBody (block_number : BlockNumber) (block_hash : H256)
  | readTotalDifficulty (block_number : BlockNumber) (block_hash : H256)
  | beginBlock (block_number : BlockNumber)
  | updateAccount (address : Address) (initial : Option Account)
      (current : Option Account)
  | updateCode (code_hash : H256) (code : Bytes)
  | updateStorage (address : Address) (location : U256) (initial : U256)
      (current : U256)
deriving DecidableEq, Repr

/-- `ResumeData` (resume_data.rs): the resume payload fed back into the
inner coroutine. -/
inductive ResumeData where
  | empty
  | account (a : Option Account)
  | storage (v : U256)
  | code (c : Bytes)
  | header (h : Option BlockHeader)
  | body (b : Option BlockBody)
  | totalDifficulty (td : Option U256)
deriving DecidableEq, Repr

/-- One resume step of the inner generator
(`Generator<ResumeData, Yield = InterruptData, Return = Result<(), Box<ValidationError>>>`):
it either yields a request or completes with a result; in both cases the
generator object is left in a new state (Rust mutates it in place, the
model passes the state explicitly). -/
inductive GeneratorState (S : Type) where
  | yielded (d : InterruptData) (next : S)
  | complete (result : Except ValidationError Unit) (next : S)

/-- `InnerCoroutine`: the boxed generator, modelled as its current state
together with its (pure) step behaviour. -/
structure InnerCoroutine (S : Type) where
  state : S
  step : S → ResumeData → GeneratorState S

/-- Handle to resume a `ReadAccount` request (interrupt.rs). -/
structure ReadAccountInterrupt (S : Type) where
  inner : InnerCoroutine S

/-- Handle to resume a `ReadStorage` request. -/
structure ReadStorageInterrupt (S : Type) where
  inner : InnerCoroutine S

/-- Handle to resume a `ReadCode` request. -/
structure ReadCodeInterrupt (S : Type) where
  inner : InnerCoroutine S

/-- Handle to resume an `EraseStorage` request. -/
structure EraseStorageInterrupt (S : Type) where
  inner : InnerCoroutine S

/-- Handle to resume a `ReadHeader` request. -/
structure ReadHeaderInterrupt (S : Type) where
  inner : InnerCoroutine S

/-- Handle to resume a `ReadBody` request. -/
structure ReadBodyInterrupt (S : Type) where
  inner : InnerCoroutine S

/-- Handle to resume a `ReadTotalDifficulty` request. -/
structure ReadTotalDifficultyInterrupt (S : Type) where
  inner : InnerCoroutine S

/-- Handle to resume a `BeginBlock` notification. -/
structure BeginBlockInterrupt (S : Type) where
  inner : InnerCoroutine S

/-- Handle to resume an `UpdateAccount` notification. -/
structure UpdateAccountInterrupt (S : Type) where
  inner : InnerCoroutine S

/-- Handle to resume an `UpdateCode` notification. -/
structure UpdateCodeInterrupt (S : Type) where
  inner : InnerCoroutine S

/-- Handle to resume an `UpdateStorage` notification. -/
structure UpdateStorageInterrupt (S : Type) where
  inner : InnerCoroutine S

/-- Handle to start execution (`StartedInterrupt`). -/
structure StartedInterrupt (S : Type) where
  inner : InnerCoroutine S

/-- Execution complete; this handle offers no resume operation. -/
structure FinishedInterrupt (S : Type) where
  inner : InnerCoroutine S

/-- `Interrupt` (interrupt.rs): what `resume_interrupt` hands back to the
host — the request parameters plus the per-kind resumption handle, or
`complete` with the terminal handle and the final result. -/
inductive Interrupt (S : Type) where
  | readAccount (interrupt : ReadAccountInterrupt S) (address : Address)
  | readStorage (interrupt : ReadStorageInterrupt S) (address : Address)
      (location : U256)
  | readCode (interrupt : ReadCodeInterrupt S) (code_hash : H256)
  | eraseStorage (interrupt : EraseStorageInterrupt S) (address : Address)
      (location : U256)
  | readHeader (interrupt : ReadHeaderInterrupt S)
      (block_number : BlockNumber) (block_hash : H256)
  | readBody (interrupt : ReadBodyInterrupt S)
      (block_number : BlockNumber) (block_hash : H256)
  | readTotalDifficulty (interrupt : ReadTotalDifficultyInterrupt S)
      (block_number : BlockNumber) (block_hash : H256)
  | beginBlock (interrupt : BeginBlockInterrupt S)
      (block_number : BlockNumber)
  | updateAccount (interrupt : UpdateAccountInterrupt S) (address : Address)
      (initial : Option Account) (current : Option Account)
  | updateCode (interrupt : UpdateCodeInterrupt S) (code_hash : H256)
      (code : Bytes)
  | updateStorage (interrupt : UpdateStorageInterrupt S) (address : Address)
      (location : U256) (initial : U256) (current : U256)
  | complete (interrupt : FinishedInterrupt S)
      (result : Except ValidationError Unit)

/-- `resume_interrupt` (mod.rs): advance the inner coroutine once with the
given resume data and wrap the outcome into the matching `Interrupt`
variant together with the request parameters and the per-kind handle. -/
def resume_interrupt {S : Type} (inner : InnerCoroutine S)
    (resume_data : ResumeData) : Interrupt S :=
  match inner.step inner.state resume_data with
  | .yielded d s' =>
    match d with
    | .readAccount address => .readAccount ⟨⟨s', inner.step⟩⟩ address
    | .readStorage address location =>
        .readStorage ⟨⟨s', inner.step⟩⟩ address location
    | .readCode code_hash => .readCode ⟨⟨s', inner.step⟩⟩ code_hash
    | .eraseStorage address location =>
        .eraseStorage ⟨⟨s', inner.step⟩⟩ address location
    | .readHeader block_number block_hash =>
        .readHeader ⟨⟨s', inner.step⟩⟩ block_number block_hash
    | .readBody block_number block_hash =>
        .readBody ⟨⟨s', inner.step⟩⟩ block_number block_hash
    | .readTotalDifficulty block_number block_hash =>
        .readTotalDifficulty ⟨⟨s', inner.step⟩⟩ block_number block_hash
    | .beginBlock block_number => .beginBlock ⟨⟨s', inner.step⟩⟩ block_number
    | .updateAccount address initial current =>
        .updateAccount ⟨⟨s', inner.step⟩⟩ address initial current
    | .updateCode code_hash code =>
        .updateCode ⟨⟨s', inner.step⟩⟩ code_hash code
    | .updateStorage address location initial current =>
        .updateStorage ⟨⟨s', inner.step⟩⟩ address location initial current
  | .complete result s' => .complete ⟨⟨s', inner.step⟩⟩ result

/-- `StartedInterrupt::resume` — `()` converts into `ResumeData::Empty`. -/
def StartedInterrupt.resume {S : Type} (self : StartedInterrupt S)
    (_ : Unit) : Interrupt S :=
  resume_interrupt self.inner ResumeData.empty

/-- `ReadAccountInterrupt::resume`, accepting only an optional account. -/
def ReadAccountInterrupt.resume {S : Type} (self : ReadAccountInterrupt S)
    (resume_data : Option Account) : Interrupt S :=
  resume_interrupt self.inner (ResumeData.account resume_data)

/-- `ReadStorageInterrupt::resume`, accepting only a `U256`. -/
def ReadStorageInterrupt.resume {S : Type} (self : ReadStorageInterrupt S)
    (resume_data : U256) : Interrupt S :=
  resume_interrupt self.inner (ResumeData.storage resume_data)

/-- `ReadCodeInterrupt::resume`, accepting only a byte string. -/
def ReadCodeInterrupt.resume {S : Type} (self : ReadCodeInterrupt S)
    (resume_data : Bytes) : Interrupt S :=
  resume_interrupt self.inner (ResumeData.code resume_data)

/-- `EraseStorageInterrupt::resume`, accepting only `()`. -/
def EraseStorageInterrupt.resume {S : Type} (self : EraseStorageInterrupt S)
    (_ : Unit) : Interrupt S :=
  resume_interrupt self.inner ResumeData.empty

/-- `ReadHeaderInterrupt::resume`, accepting only an optional header. -/
def ReadHeaderInterrupt.resume {S : Type} (self : ReadHeaderInterrupt S)
    (resume_data : Option BlockHeader) : Interrupt S :=
  resume_interrupt self.inner (ResumeData.header resume_data)

/-- `ReadBodyInterrupt::resume`, accepting only an optional body. -/
def ReadBodyInterrupt.resume {S : Type} (self : ReadBodyInterrupt S)
    (resume_data : Option BlockBody) : Interrupt S :=
  resume_interrupt self.inner (ResumeData.body resume_data)

/-- `ReadTotalDifficultyInterrupt::resume`, accepting only an optional
`U256`. -/
def ReadTotalDifficultyInterrupt.resume {S : Type}
    (self : ReadTotalDifficultyInterrupt S)
    (resume_data : Option U256) : Interrupt S :=
  resume_interrupt self.inner (ResumeData.totalDifficulty resume_data)

/-- `BeginBlockInterrupt::resume`, accepting only `()`. -/
def BeginBlockInterrupt.resume {S : Type} (self : BeginBlockInterrupt S)
    (_ : Unit) : Interrupt S :=
  resume_interrupt self.inner ResumeData.empty

/-- `UpdateAccountInterrupt::resume`, accepting only `()`. -/
def UpdateAccountInterrupt.resume {S : Type} (self : UpdateAccountInterrupt S)
    (_ : Unit) : Interrupt S :=
  resume_interrupt self.inner ResumeData.empty

/-- `UpdateCodeInterrupt::resume`, accepting only `()`. -/
def UpdateCodeInterrupt.resume {S : Type} (self : UpdateCodeInterrupt S)
    (_ : Unit) : Interrupt S :=
  resume_interrupt self.inner ResumeData.empty

/-- `UpdateStorageInterrupt::resume`, accepting only `()`. -/
def UpdateStorageInterrupt.resume {S : Type} (self : UpdateStorageInterrupt S)
    (_ : Unit) : Interrupt S :=
  resume_interrupt self.inner ResumeData.empty

/-- The host's view of an `Interrupt`: either the request data with the
coroutine held by its handle, or the final result. -/
def observe {S : Type} : Interrupt S → (InterruptData × InnerCoroutine S) ⊕ Except ValidationError Unit
  | .readAccount h a => .inl (.readAccount a, h.inner)
  | .readStorage h a l => .inl (.readStorage a l, h.inner)
  | .readCode h ch => .inl (.readCode ch, h.inner)
  | .eraseStorage h a l => .inl (.eraseStorage a l, h.inner)
  | .readHeader h n bh => .inl (.readHeader n bh, h.inner)
  | .readBody h n bh => .inl (.readBody n bh, h.inner)
  | .readTotalDifficulty h n bh => .inl (.readTotalDifficulty n bh, h.inner)
  | .beginBlock h n => .inl (.beginBlock n, h.inner)
  | .updateAccount h a i c => .inl (.updateAccount a i c, h.inner)
  | .updateCode h ch c => .inl (.updateCode ch c, h.inner)
  | .updateStorage h a l i c => .inl (.updateStorage a l i c, h.inner)
  | .complete _ result => .inr result

/-- Drive one continuation through `resume_interrupt` with a given resume
sequence, recording the yielded requests and, if reached, the final
result. -/
def runTrace {S : Type} :
    InnerCoroutine S → List ResumeData → List InterruptData × Option (Except ValidationError Unit)
  | _, [] => ([], none)
  | co, r :: rs =>
    match observe (resume_interrupt co r) with
    | .inl (d, next) =>
      let t := runTrace next rs
      (d :: t.1, t.2)
    | .inr result => ([], some result)

/-- The error carried by an `Interrupt`, if any: only the `complete`
variant has a result to fail with. -/
def interruptError {S : Type} : Interrupt S → Option ValidationError
  | .complete _ (.error e) => some e
  | _ => none

/-- Whether an `Interrupt` is the terminal `complete` variant. -/
def Interrupt.isComplete {S : Type} : Interrupt S → Bool
  | .complete _ _ => true
  | _ => false

/-- A small concrete coroutine used to witness the driver theorems: it
yields one `beginBlock` request and then completes successfully. -/
def sampleCoroutine : InnerCoroutine Nat where
  state := 0
  step := fun s _ =>
    if s = 0 then .yielded (.beginBlock 7) 1 else .complete (.ok ()) s

/-! ## Claims about the continuation driver -/

/-- C5: two runs of one continuation with identical executor context
(the same inner coroutine) and identical resume-value sequences produce
identical request sequences and identical final results. -/
theorem C5_two_run_determinism {S : Type} (co₁ co₂ : InnerCoroutine S)
    (rs₁ rs₂ : List ResumeData) (hco : co₁ = co₂) (hrs : rs₁ = rs₂) :
    runTrace co₁ rs₁ = runTrace co₂ rs₂ := by
  subst hco
  subst hrs
  rfl

theorem C5_two_run_determinism_witness :
    runTrace sampleCoroutine [ResumeData.empty, ResumeData.empty]
        = runTrace sampleCoroutine [ResumeData.empty, ResumeData.empty]
      ∧ runTrace sampleCoroutine [ResumeData.empty, ResumeData.empty]
        = ([InterruptData.beginBlock 7], some (Except.ok ())) :=
  ⟨C5_two_run_determinism sampleCoroutine sampleCoroutine
    [ResumeData.empty, ResumeData.empty] [ResumeData.empty, ResumeData.empty]
    rfl rfl, rfl⟩

/-- C6: the driver's only failure surface is termination — whenever the
inner computation yields, the returned `Interrupt` is not `complete` and
carries no error; whenever the inner computation completes with result
`res`, the returned `Interrupt` is exactly `complete` carrying `res`
(so an `Err(ValidationError)` can surface only there). -/
theorem C6_failure_surface {S : Type} (co : InnerCoroutine S) (rd : ResumeData) :
    (∀ d s', co.step co.state rd = .yielded d s' →
      (resume_interrupt co rd).isComplete = false
        ∧ interruptError (resume_interrupt co rd) = none) ∧
    (∀ res s', co.step co.state rd = .complete res s' →
      resume_interrupt co rd = .complete ⟨⟨s', co.step⟩⟩ res) := by
  constructor
  · intro d s' hstep
    cases d <;>
      simp [resume_interrupt, hstep, interruptError, Interrupt.isComplete]
  · intro res s' hstep
    simp [resume_interrupt, hstep]

theorem C6_failure_surface_witness :
    (resume_interrupt sampleCoroutine ResumeData.empty).isComplete = false
      ∧ interruptError (resume_interrupt sampleCoroutine ResumeData.empty) = none :=
  (C6_failure_surface sampleCoroutine ResumeData.empty).1
    (InterruptData.beginBlock 7) 1 rfl

/-- C7: `resume_interrupt` maps every yield of the inner computation to
the `Interrupt` variant of the same kind, carrying exactly the yielded
request's parameters together with that kind's resumption handle, and
maps completion to the `complete` variant carrying the terminal handle
and the final result. -/
theorem C7_variant_dispatch {S : Type} (co : InnerCoroutine S) (rd : ResumeData) :
    (∀ address s', co.step co.state rd = .yielded (.readAccount address) s' →
      resume_interrupt co rd = .readAccount ⟨⟨s', co.step⟩⟩ address) ∧
    (∀ address location s',
      co.step co.state rd = .yielded (.readStorage address location) s' →
      resume_interrupt co rd = .readStorage ⟨⟨s', co.step⟩⟩ address location) ∧
    (∀ code_hash s', co.step co.state rd = .yielded (.readCode code_hash) s' →
      resume_interrupt co rd = .readCode ⟨⟨s', co.step⟩⟩ code_hash) ∧
    (∀ address location s',
      co.step co.state rd = .yielded (.eraseStorage address location) s' →
      resume_interrupt co rd = .eraseStorage ⟨⟨s', co.step⟩⟩ address location) ∧
    (∀ block_number block_hash s',
      co.step co.state rd = .yielded (.readHeader block_number block_hash) s' →
      resume_interrupt co rd
        = .readHeader ⟨⟨s', co.step⟩⟩ block_number block_hash) ∧
    (∀ block_number block_hash s',
      co.step co.state rd = .yielded (.readBody block_number block_hash) s' →
      resume_interrupt co rd
        = .readBody ⟨⟨s', co.step⟩⟩ block_number block_hash) ∧
    (∀ block_number block_hash s',
      co.step co.state rd
          = .yielded (.readTotalDifficulty block_number block_hash) s' →
      resume_interrupt co rd
        = .readTotalDifficulty ⟨⟨s', co.step⟩⟩ block_number block_hash) ∧
    (∀ block_number s',
      co.step co.state rd = .yielded (.beginBlock block_number) s' →
      resume_interrupt co rd = .beginBlock ⟨⟨s', co.step⟩⟩ block_number) ∧
    (∀ address initial current s',
      co.step co.state rd
          = .yielded (.updateAccount address initial current) s' →
      resume_interrupt co rd
        = .updateAccount ⟨⟨s', co.step⟩⟩ address initial current) ∧
    (∀ code_hash code s',
      co.step co.state rd = .yielded (.updateCode code_hash code) s' →
      resume_interrupt co rd = .updateCode ⟨⟨s', co.step⟩⟩ code_hash code) ∧
    (∀ address location initial current s',
      co.step co.state rd
          = .yielded (.updateStorage address location initial current) s' →
      resume_interrupt co rd
        = .updateStorage ⟨⟨s', co.step⟩⟩ address location initial current) ∧
    (∀ result s', co.step co.state rd = .complete result s' →
      resume_interrupt co rd = .complete ⟨⟨s', co.step⟩⟩ result) := by
  refine ⟨?_, ?_, ?_, ?_, ?_, ?_, ?_, ?_, ?_, ?_, ?_, ?_⟩ <;>
    (intros; rename_i hstep; simp [resume_interrupt, hstep])

theorem C7_variant_dispatch_witness :
    resume_interrupt sampleCoroutine ResumeData.empty
      = Interrupt.beginBlock ⟨⟨1, sampleCoroutine.step⟩⟩ 7 :=
  (C7_variant_dispatch sampleCoroutine ResumeData.empty).2.2.2.2.2.2.2.1 7 1 rfl
